import Mathlib

/-!
Shallow embedding of the MomoAI formal coherence verifier
(`projects/coherence/formal_verifier/src/lib.rs`).

The Rust code builds propositional formulas over Z3 boolean constants and
queries the Z3 solver.  We embed the formulas built by the code as the
inductive type `Z3Bool` with an evaluation semantics, and model the solver
as an oracle `Oracle : List Z3Bool → SatResult` together with a soundness
predicate; `z3Check` is the ideal sound and complete oracle, a decision
procedure for propositional satisfiability.
-/

namespace MomoAI

/-- A Z3 boolean AST as built by the verifier: `Bool::new_const`,
`Bool::from_bool`, `.not()` and `Bool::and`. -/
inductive Z3Bool where
  | const : String → Z3Bool
  | lit : Bool → Z3Bool
  | not : Z3Bool → Z3Bool
  | and : Z3Bool → Z3Bool → Z3Bool
deriving DecidableEq

/-- Evaluation of a `Z3Bool` under an assignment of the boolean constants. -/
def eval (v : String → Bool) : Z3Bool → Bool
  | .const s => v s
  | .lit b => b
  | .not f => !(eval v f)
  | .and f g => eval v f && eval v g

/-- The constant names occurring in a formula. -/
def atoms : Z3Bool → List String
  | .const s => [s]
  | .lit _ => []
  | .not f => atoms f
  | .and f g => atoms f ++ atoms g

/-- The constant names occurring in a list of asserted formulas. -/
def atomsList (l : List Z3Bool) : List String :=
  l.flatMap atoms

/-- A list of asserted formulas is satisfiable when some assignment makes
them all true. -/
def Satisfiable (l : List Z3Bool) : Prop :=
  ∃ v : String → Bool, ∀ f ∈ l, eval v f = true

/-- Update one variable of an assignment. -/
def setVar (v : String → Bool) (a : String) (b : Bool) : String → Bool :=
  fun x => if x = a then b else v x

/-- All assignments over a finite support of constant names (constants
outside the support are false). -/
def allAssignments : List String → List (String → Bool)
  | [] => [fun _ => false]
  | a :: rest =>
    (allAssignments rest).flatMap fun v => [setVar v a false, setVar v a true]

/-- The verdicts of the satisfiability oracle (`z3::SatResult`). -/
inductive SatResult where
  | Sat : SatResult
  | Unsat : SatResult
  | Unknown : SatResult
deriving DecidableEq

/-- The solver, seen from the verifier: a black box answering a list of
asserted formulas. -/
def Oracle : Type := List Z3Bool → SatResult

/-- An oracle is sound when `Sat` implies satisfiability and `Unsat`
implies unsatisfiability. -/
def SoundOracle (o : Oracle) : Prop :=
  ∀ l, (o l = .Sat → Satisfiable l) ∧ (o l = .Unsat → ¬ Satisfiable l)

/-- An oracle is complete when it never answers `Unknown`. -/
def CompleteOracle (o : Oracle) : Prop :=
  ∀ l, o l ≠ .Unknown

/-- Decision procedure for satisfiability of a list of assertions. -/
def z3CheckB (l : List Z3Bool) : Bool :=
  (allAssignments (atomsList l)).any fun v => l.all fun f => eval v f

/-- The ideal oracle: decides satisfiability, never answers `Unknown`. -/
def z3Check : Oracle :=
  fun l => if z3CheckB l then .Sat else .Unsat

/-- `Predicate` from the Rust source: a named, possibly negated atom. -/
structure Predicate where
  name : String
  args : List String
  negated : Bool
deriving DecidableEq

/-- `Statement` from the Rust source: an id, the origin text, and a list
of predicates whose conjunction is the statement's formula. -/
structure Statement where
  id : String
  text : String
  predicates : List Predicate
deriving DecidableEq

/-- `Contradiction` from the Rust source. -/
structure Contradiction where
  statement1 : String
  statement2 : String
  reason : String
  formal_proof : String
deriving DecidableEq

/-- `VerificationResult` from the Rust source.  The `f64` confidence only
ever holds the exact values `1.0` and `0.0`, modelled as rationals. -/
structure VerificationResult where
  is_consistent : Bool
  proof : Option String
  contradictions : List Contradiction
  confidence : Rat
deriving DecidableEq

/-- The verifier's `predicates: HashMap<String, Bool>` field, modelled as a
partial map from rendered signature to the interned constant. -/
def PredMap : Type := String → Option Z3Bool

/-- The cleared map (`self.predicates.clear()` / a fresh verifier). -/
def emptyMap : PredMap := fun _ => none

/-- The rendered signature `format!("{}({})", name, args.join(","))`. -/
def predName (p : Predicate) : String :=
  p.name ++ "(" ++ String.intercalate ("," ) p.args ++ ")"

/-- Look up the rendered signature in the map, creating and inserting a
fresh boolean constant on a miss (the interning step of `statement_to_z3`). -/
def internPred (m : PredMap) (p : Predicate) : Z3Bool × PredMap :=
  match m (predName p) with
  | some existing => (existing, m)
  | none =>
    (Z3Bool.const (predName p),
     fun k => if k = predName p then some (Z3Bool.const (predName p)) else m k)

/-- The conjunct-collection loop of `statement_to_z3`: for each predicate,
intern its atom and apply negation when `negated` is set. -/
def buildConjuncts (m : PredMap) : List Predicate → List Z3Bool × PredMap
  | [] => ([], m)
  | p :: rest =>
    let zp := internPred m p
    let litp := if p.negated then Z3Bool.not zp.1 else zp.1
    let res := buildConjuncts zp.2 rest
    (litp :: res.1, res.2)

/-- The conjunct-combination step of `statement_to_z3`: empty list gives
`from_bool(true)`, one conjunct is returned as is, more are combined with
left-to-right `Bool::and`. -/
def combineAnd : List Z3Bool → Z3Bool
  | [] => .lit true
  | c :: rest => rest.foldl Z3Bool.and c

/-- `statement_to_z3`: convert a statement to a Z3 boolean expression,
threading the interning map.  The Rust function returns
`anyhow::Result` but has no failing path. -/
def statement_to_z3 (m : PredMap) (s : Statement) :
    Except String (Z3Bool × PredMap) :=
  let res := buildConjuncts m s.predicates
  .ok (combineAnd res.1, res.2)

/-- The canonical literal of a predicate: its interned atom, negated when
`negated` is set. -/
def litFormula (p : Predicate) : Z3Bool :=
  if p.negated then Z3Bool.not (Z3Bool.const (predName p))
  else Z3Bool.const (predName p)

/-- The canonical formula of a statement: the left-to-right conjunction of
its literals. -/
def stmtFormula (s : Statement) : Z3Bool :=
  combineAnd (s.predicates.map litFormula)

/-- Invariant of the interning map: every stored constant is the constant
named by its own key. -/
def GoodMap (m : PredMap) : Prop :=
  ∀ k f, m k = some f → f = Z3Bool.const k

/-- Default statement for (always in-range) slice indexing. -/
def dStmt : Statement := { id := "", text := "", predicates := [] }

/-- The statement-conversion loop shared by `verify_statements` and
`verify_reasoning_chain`: convert each statement in order, threading the
interning map, collecting the expressions to assert. -/
def statements_to_z3 (m : PredMap) :
    List Statement → Except String (List Z3Bool × PredMap)
  | [] => .ok ([], m)
  | s :: rest => do
    let fm ← statement_to_z3 m s
    let rest2 ← statements_to_z3 fm.2 rest
    .ok (fm.1 :: rest2.1, rest2.2)

/-- `check_pair_contradiction`: convert the two statements with the shared
map, assert both in a fresh solver, and emit a `Contradiction` exactly when
the solver answers `Unsat`. -/
def check_pair_contradiction (o : Oracle) (m : PredMap)
    (stmt1 stmt2 : Statement) :
    Except String (Option Contradiction × PredMap) := do
  let f1 ← statement_to_z3 m stmt1
  let f2 ← statement_to_z3 f1.2 stmt2
  match o [f1.1, f2.1] with
  | .Unsat =>
    .ok (some { statement1 := stmt1.id, statement2 := stmt2.id,
                reason := "Statements are mutually exclusive",
                formal_proof := "Z3 proved (stmt1 ∧ stmt2) is unsatisfiable" },
         f2.2)
  | _ => .ok (none, f2.2)

/-- The index pairs `(i, j)` with `i < j < n` visited by the nested loops
of `find_contradictions`, in visit order. -/
def pairList (n : Nat) : List (Nat × Nat) :=
  (List.range n).flatMap fun i =>
    (List.range' (i + 1) (n - (i + 1))).map fun j => (i, j)

/-- The body of `find_contradictions`, folded over the index pairs:
check each pair, collecting emitted contradictions in visit order. -/
def runPairs (o : Oracle) (stmts : List Statement) :
    List (Nat × Nat) → PredMap → Except String (List Contradiction × PredMap)
  | [], m => .ok ([], m)
  | ij :: rest, m => do
    let c ← check_pair_contradiction o m (stmts.getD ij.1 dStmt)
      (stmts.getD ij.2 dStmt)
    let cs ← runPairs o stmts rest c.2
    .ok (c.1.toList ++ cs.1, cs.2)

/-- `find_contradictions`: check every unordered pair of statements,
reusing the verifier's interning map. -/
def find_contradictions (o : Oracle) (m : PredMap) (stmts : List Statement) :
    Except String (List Contradiction × PredMap) :=
  runPairs o stmts (pairList stmts.length) m

/-- `verify_statements`: clear solver and map, assert every statement's
formula, query the oracle, and build the `VerificationResult`; on `Unsat`
the contradiction localizer populates `contradictions`. -/
def verify_statements (o : Oracle) (statements : List Statement) :
    Except String VerificationResult := do
  let fm ← statements_to_z3 emptyMap statements
  match o fm.1 with
  | .Sat =>
    .ok { is_consistent := true, proof := some ("Z3 found satisfying model"),
          contradictions := [], confidence := 1 }
  | .Unsat => do
    let cm ← find_contradictions o fm.2 statements
    .ok { is_consistent := false, proof := some ("Z3 proved unsatisfiability"),
          contradictions := cm.1, confidence := 1 }
  | .Unknown =>
    .ok { is_consistent := false, proof := none, contradictions := [],
          confidence := 0 }

/-- `verify_reasoning_chain`: assert every premise's formula and the
negation (logical NOT of the whole built conjunction) of the conclusion's
formula; `Unsat` means the premises entail the conclusion. -/
def verify_reasoning_chain (o : Oracle) (premises : List Statement)
    (conclusion : Statement) : Except String VerificationResult := do
  let pm ← statements_to_z3 emptyMap premises
  let cm ← statement_to_z3 pm.2 conclusion
  match o (pm.1 ++ [Z3Bool.not cm.1]) with
  | .Unsat =>
    .ok { is_consistent := true,
          proof := some ("Z3 proved premises logically entail conclusion"),
          contradictions := [], confidence := 1 }
  | .Sat =>
    .ok { is_consistent := false,
          proof := some
            ("Z3 found counterexample where premises are true but conclusion is false"),
          contradictions := [], confidence := 1 }
  | .Unknown =>
    .ok { is_consistent := false, proof := none, contradictions := [],
          confidence := 0 }

/-- The contradiction record `check_pair_contradiction` emits for a pair
of statements, as a function of the oracle's verdict on their formulas. -/
def pairVerdict (o : Oracle) (s1 s2 : Statement) : Option Contradiction :=
  match o [stmtFormula s1, stmtFormula s2] with
  | .Unsat =>
    some { statement1 := s1.id, statement2 := s2.id,
           reason := "Statements are mutually exclusive",
           formal_proof := "Z3 proved (stmt1 ∧ stmt2) is unsatisfiable" }
  | _ => none

/-- The contradiction record emitted for an index pair. -/
def emitPair (o : Oracle) (stmts : List Statement) (ij : Nat × Nat) :
    Option Contradiction :=
  pairVerdict o (stmts.getD ij.1 dStmt) (stmts.getD ij.2 dStmt)

/-- The assertions of the entailment check: every premise formula, then
the logical NOT of the conclusion's whole formula. -/
def chainAsserts (premises : List Statement) (conclusion : Statement) :
    List Z3Bool :=
  premises.map stmtFormula ++ [Z3Bool.not (stmtFormula conclusion)]

/-- The result `verify_reasoning_chain` builds from the oracle verdict. -/
def chainResult : SatResult → VerificationResult
  | .Unsat =>
    { is_consistent := true,
      proof := some ("Z3 proved premises logically entail conclusion"),
      contradictions := [], confidence := 1 }
  | .Sat =>
    { is_consistent := false,
      proof := some
        ("Z3 found counterexample where premises are true but conclusion is false"),
      contradictions := [], confidence := 1 }
  | .Unknown =>
    { is_consistent := false, proof := none, contradictions := [],
      confidence := 0 }

/-- Negation of a conclusion expressed as a `Statement` value: the only
syntactic candidate is flipping each predicate's `negated` flag.  For a
single-predicate conclusion this is exactly the logical negation; for
longer conclusions it is not (De Morgan). -/
def negateStatement (s : Statement) : Statement :=
  { s with predicates := s.predicates.map fun p => { p with negated := !p.negated } }

/-- An oracle that always times out. -/
def oUnknown : Oracle := fun _ => SatResult.Unknown

/-- An oracle that always answers satisfiable. -/
def oSat : Oracle := fun _ => SatResult.Sat

/-- The atom `P(x)`, unnegated. -/
def pPos : Predicate := { name := "P", args := ["x"], negated := false }

/-- The atom `P(x)`, negated. -/
def pNeg : Predicate := { name := "P", args := ["x"], negated := true }

/-- A statement asserting `P(x)`. -/
def sPos : Statement := { id := "s1", text := "", predicates := [pPos] }

/-- A statement asserting `¬P(x)`. -/
def sNeg : Statement := { id := "s2", text := "", predicates := [pNeg] }

/-- A self-contradictory statement asserting `P(x) ∧ ¬P(x)`. -/
def sSelf : Statement := { id := "s1", text := "", predicates := [pPos, pNeg] }

/-- The nullary atom `A()`. -/
def pA : Predicate := { name := "A", args := [], negated := false }

/-- The nullary atom `B()`. -/
def pB : Predicate := { name := "B", args := [], negated := false }

/-- A premise statement asserting `A()`. -/
def sA : Statement := { id := "pa", text := "", predicates := [pA] }

/-- A two-literal conclusion asserting `A() ∧ B()`. -/
def cAB : Statement := { id := "c", text := "", predicates := [pA, pB] }

/-- A predicate with a zero-length name. -/
def pEmptyName : Predicate := { name := "", args := [], negated := false }

/-- A statement carrying the zero-length-name predicate. -/
def sEmptyName : Statement :=
  { id := "s1", text := "", predicates := [pEmptyName] }

/-- The negation of the zero-length-name atom, in a second statement. -/
def sEmptyNameNeg : Statement :=
  { id := "s2", text := "",
    predicates := [{ name := "", args := [], negated := true }] }

/-- A predicate whose single argument contains a comma. -/
def pJoined : Predicate := { name := "f", args := ["a,b"], negated := false }

/-- A predicate with two arguments rendering to the same signature. -/
def pSplit : Predicate := { name := "f", args := ["a", "b"], negated := false }

/-- The two-argument predicate, negated. -/
def pSplitNeg : Predicate := { name := "f", args := ["a", "b"], negated := true }

/-- A statement asserting the comma-argument predicate. -/
def sJoined : Statement := { id := "s1", text := "", predicates := [pJoined] }

/-- A statement negating the two-argument predicate. -/
def sSplitNeg : Statement :=
  { id := "s2", text := "", predicates := [pSplitNeg] }

/-- A statement with an empty predicate list (trivially true). -/
def sTrivial : Statement := { id := "e", text := "", predicates := [] }

/-- The contradiction record for the pair `sPos`, `sNeg`. -/
def cPosNeg : Contradiction :=
  { statement1 := "s1", statement2 := "s2",
    reason := "Statements are mutually exclusive",
    formal_proof := "Z3 proved (stmt1 ∧ stmt2) is unsatisfiable" }

/-- The result of `check` on `[sPos, sNeg]`. -/
def rUnsatPair : VerificationResult :=
  { is_consistent := false, proof := some ("Z3 proved unsatisfiability"),
    contradictions := [cPosNeg], confidence := 1 }

/-- The result of `check` on a satisfiable input. -/
def rSatEmpty : VerificationResult :=
  { is_consistent := true, proof := some ("Z3 found satisfying model"),
    contradictions := [], confidence := 1 }

/-- The result of `entails` when the conclusion does not follow. -/
def rChainSat : VerificationResult :=
  { is_consistent := false,
    proof := some
      ("Z3 found counterexample where premises are true but conclusion is false"),
    contradictions := [], confidence := 1 }

theorem eval_congr {v w : String → Bool} (f : Z3Bool)
    (h : ∀ a ∈ atoms f, v a = w a) : eval v f = eval w f := by
  induction f with
  | const s => exact h s (by simp [atoms])
  | lit b => rfl
  | not f ih => simp [eval]; exact ih h
  | and f g ihf ihg =>
    simp only [eval]
    rw [ihf fun a ha => h a (by simp [atoms, ha]),
        ihg fun a ha => h a (by simp [atoms, ha])]

theorem allAssignments_complete (as : List String) (v : String → Bool) :
    ∃ v' ∈ allAssignments as, ∀ a ∈ as, v' a = v a := by
  induction as with
  | nil => exact ⟨fun _ => false, by simp [allAssignments], by simp⟩
  | cons a rest ih =>
    obtain ⟨v', hv'mem, hv'⟩ := ih
    refine ⟨setVar v' a (v a), ?_, ?_⟩
    · simp only [allAssignments, List.mem_flatMap]
      refine ⟨v', hv'mem, ?_⟩
      cases hva : v a <;> simp [hva]
    · intro x hx
      by_cases hxa : x = a
      · subst hxa; simp [setVar]
      · simp only [setVar, if_neg hxa]
        exact hv' x (by cases hx with
          | head => exact absurd rfl hxa
          | tail _ h => exact h)

theorem z3CheckB_iff (l : List Z3Bool) : z3CheckB l = true ↔ Satisfiable l := by
  constructor
  · intro h
    simp only [z3CheckB, List.any_eq_true] at h
    obtain ⟨v, _, hv⟩ := h
    exact ⟨v, by simpa [List.all_eq_true] using hv⟩
  · rintro ⟨v, hv⟩
    obtain ⟨v', hv'mem, hv'⟩ := allAssignments_complete (atomsList l) v
    simp only [z3CheckB, List.any_eq_true]
    refine ⟨v', hv'mem, ?_⟩
    simp only [List.all_eq_true]
    intro f hf
    rw [eval_congr f fun a ha => hv' a ?_]
    · exact hv f hf
    · exact List.mem_flatMap.mpr ⟨f, hf, ha⟩

theorem z3Check_sound : SoundOracle z3Check := by
  intro l
  constructor
  · intro h
    by_cases hb : z3CheckB l
    · exact (z3CheckB_iff l).mp hb
    · simp [z3Check, hb] at h
  · intro h hsat
    by_cases hb : z3CheckB l
    · simp [z3Check, hb] at h
    · exact hb ((z3CheckB_iff l).mpr hsat)

theorem z3Check_complete : CompleteOracle z3Check := by
  intro l
  by_cases hb : z3CheckB l <;> simp [z3Check, hb]

theorem z3Check_Unsat_iff (l : List Z3Bool) :
    z3Check l = .Unsat ↔ ¬ Satisfiable l := by
  constructor
  · exact (z3Check_sound l).2
  · intro h
    by_cases hb : z3CheckB l
    · exact absurd ((z3CheckB_iff l).mp hb) h
    · simp [z3Check, hb]

theorem z3Check_Sat_iff (l : List Z3Bool) :
    z3Check l = .Sat ↔ Satisfiable l := by
  constructor
  · exact (z3Check_sound l).1
  · intro h
    simp [z3Check, (z3CheckB_iff l).mpr h]

theorem goodMap_empty : GoodMap emptyMap := by
  intro k f h
  simp [emptyMap] at h

theorem internPred_fst {m : PredMap} (hm : GoodMap m) (p : Predicate) :
    (internPred m p).1 = Z3Bool.const (predName p) := by
  unfold internPred
  cases hmp : m (predName p) with
  | none => rfl
  | some existing => simpa using hm _ _ hmp

theorem internPred_snd {m : PredMap} (hm : GoodMap m) (p : Predicate) :
    GoodMap (internPred m p).2 := by
  unfold internPred
  cases hmp : m (predName p) with
  | none =>
    show GoodMap fun k =>
      if k = predName p then some (Z3Bool.const (predName p)) else m k
    intro k f h
    dsimp only at h
    by_cases hk : k = predName p
    · subst hk
      rw [if_pos rfl] at h
      exact (Option.some.inj h).symm
    · rw [if_neg hk] at h
      exact hm _ _ h
  | some existing => exact hm

theorem buildConjuncts_fst {m : PredMap} (hm : GoodMap m)
    (ps : List Predicate) :
    (buildConjuncts m ps).1 = ps.map litFormula ∧
      GoodMap (buildConjuncts m ps).2 := by
  induction ps generalizing m with
  | nil => exact ⟨rfl, hm⟩
  | cons p rest ih =>
    obtain ⟨h1, h2⟩ := ih (internPred_snd hm p)
    refine ⟨?_, h2⟩
    simp only [buildConjuncts, h1, internPred_fst hm p, List.map_cons,
      litFormula]

theorem statement_to_z3_eq {m : PredMap} (hm : GoodMap m) (s : Statement) :
    statement_to_z3 m s =
      .ok (stmtFormula s, (buildConjuncts m s.predicates).2) := by
  show Except.ok (combineAnd (buildConjuncts m s.predicates).1,
    (buildConjuncts m s.predicates).2) = _
  rw [(buildConjuncts_fst hm s.predicates).1]
  rfl

theorem eval_combineAnd (v : String → Bool) (l : List Z3Bool) :
    eval v (combineAnd l) = l.all fun f => eval v f := by
  cases l with
  | nil => rfl
  | cons c rest =>
    simp only [combineAnd, List.all_cons]
    induction rest generalizing c with
    | nil => simp
    | cons d rest ih =>
      simp only [List.foldl_cons, ih (Z3Bool.and c d), List.all_cons, eval,
        Bool.and_assoc]

theorem eval_stmtFormula (v : String → Bool) (s : Statement) :
    eval v (stmtFormula s) = s.predicates.all fun p => eval v (litFormula p) := by
  rw [stmtFormula, eval_combineAnd]
  induction s.predicates with
  | nil => rfl
  | cons p ps ih => simp only [List.map_cons, List.all_cons, ih]

theorem eval_litFormula (v : String → Bool) (p : Predicate) :
    eval v (litFormula p) =
      if p.negated then !(v (predName p)) else v (predName p) := by
  cases hp : p.negated <;> simp [litFormula, hp, eval]

theorem bindOk {ε α β : Type} (a : α) (f : α → Except ε β) :
    (Except.ok a >>= f) = f a := rfl

theorem statements_to_z3_eq {m : PredMap} (hm : GoodMap m)
    (l : List Statement) :
    ∃ m', statements_to_z3 m l = .ok (l.map stmtFormula, m') ∧ GoodMap m' := by
  induction l generalizing m with
  | nil => exact ⟨m, rfl, hm⟩
  | cons s rest ih =>
    obtain ⟨m', hrest, hm'⟩ :=
      ih ((buildConjuncts_fst hm s.predicates).2)
    refine ⟨m', ?_, hm'⟩
    simp only [statements_to_z3, statement_to_z3_eq hm s, bindOk,
      hrest, List.map_cons]

theorem check_pair_eq {m : PredMap} (hm : GoodMap m) (o : Oracle)
    (s1 s2 : Statement) :
    ∃ m', check_pair_contradiction o m s1 s2 =
        .ok (pairVerdict o s1 s2, m') ∧ GoodMap m' := by
  have hm1 := (buildConjuncts_fst hm s1.predicates).2
  refine ⟨(buildConjuncts (buildConjuncts m s1.predicates).2 s2.predicates).2,
    ?_, (buildConjuncts_fst hm1 s2.predicates).2⟩
  cases ho : o [stmtFormula s1, stmtFormula s2] <;>
    simp only [check_pair_contradiction, statement_to_z3_eq hm s1, bindOk,
      statement_to_z3_eq hm1 s2, pairVerdict, ho]

theorem runPairs_eq {m : PredMap} (hm : GoodMap m) (o : Oracle)
    (stmts : List Statement) (pl : List (Nat × Nat)) :
    ∃ m', runPairs o stmts pl m =
        .ok (pl.filterMap (emitPair o stmts), m') ∧ GoodMap m' := by
  induction pl generalizing m with
  | nil => exact ⟨m, rfl, hm⟩
  | cons ij rest ih =>
    obtain ⟨m1, hpair, hm1⟩ :=
      check_pair_eq hm o (stmts.getD ij.1 dStmt) (stmts.getD ij.2 dStmt)
    obtain ⟨m', hrest, hm'⟩ := ih hm1
    refine ⟨m', ?_, hm'⟩
    cases hv : pairVerdict o (stmts.getD ij.1 dStmt) (stmts.getD ij.2 dStmt) <;>
      rw [hv] at hpair <;>
      simp only [runPairs, hpair, bindOk, hrest, List.filterMap_cons,
        emitPair, hv, Option.toList, List.nil_append, List.singleton_append]

theorem find_contradictions_eq {m : PredMap} (hm : GoodMap m) (o : Oracle)
    (stmts : List Statement) :
    ∃ m', find_contradictions o m stmts =
        .ok ((pairList stmts.length).filterMap (emitPair o stmts), m') ∧
      GoodMap m' :=
  runPairs_eq hm o stmts (pairList stmts.length)

theorem verify_statements_sat {o : Oracle} {stmts : List Statement}
    (h : o (stmts.map stmtFormula) = .Sat) :
    verify_statements o stmts =
      .ok { is_consistent := true,
            proof := some ("Z3 found satisfying model"),
            contradictions := [], confidence := 1 } := by
  obtain ⟨m', hconv, hm'⟩ := statements_to_z3_eq goodMap_empty stmts
  simp only [verify_statements, hconv, bindOk, h]

theorem verify_statements_unsat {o : Oracle} {stmts : List Statement}
    (h : o (stmts.map stmtFormula) = .Unsat) :
    verify_statements o stmts =
      .ok { is_consistent := false,
            proof := some ("Z3 proved unsatisfiability"),
            contradictions :=
              (pairList stmts.length).filterMap (emitPair o stmts),
            confidence := 1 } := by
  obtain ⟨m', hconv, hm'⟩ := statements_to_z3_eq goodMap_empty stmts
  obtain ⟨m2, hfind, hm2⟩ := find_contradictions_eq hm' o stmts
  simp only [verify_statements, hconv, bindOk, h, hfind]

theorem verify_statements_unknown {o : Oracle} {stmts : List Statement}
    (h : o (stmts.map stmtFormula) = .Unknown) :
    verify_statements o stmts =
      .ok { is_consistent := false, proof := none, contradictions := [],
            confidence := 0 } := by
  obtain ⟨m', hconv, hm'⟩ := statements_to_z3_eq goodMap_empty stmts
  simp only [verify_statements, hconv, bindOk, h]

theorem verify_reasoning_chain_eq (o : Oracle) (premises : List Statement)
    (conclusion : Statement) :
    verify_reasoning_chain o premises conclusion =
      .ok (chainResult (o (chainAsserts premises conclusion))) := by
  obtain ⟨m', hconv, hm'⟩ := statements_to_z3_eq goodMap_empty premises
  simp only [verify_reasoning_chain, hconv, bindOk,
    statement_to_z3_eq hm' conclusion, chainAsserts]
  cases o (premises.map stmtFormula ++ [Z3Bool.not (stmtFormula conclusion)]) <;>
    rfl

theorem eval_true_of_mem {v : String → Bool} {s : Statement}
    (hs : eval v (stmtFormula s) = true) {p : Predicate}
    (hp : p ∈ s.predicates) : v (predName p) = !p.negated := by
  rw [eval_stmtFormula] at hs
  have h := (List.all_eq_true.mp hs) p hp
  rw [eval_litFormula] at h
  cases hn : p.negated <;> rw [hn] at h <;> simp at h <;> simp [h]

/-- Some statement of the list uses atom `a` positively. -/
def posB (stmts : List Statement) (a : String) : Bool :=
  stmts.any fun s => s.predicates.any fun p => !p.negated && (predName p == a)

/-- Some statement of the list uses atom `a` negatively. -/
def negB (stmts : List Statement) (a : String) : Bool :=
  stmts.any fun s => s.predicates.any fun p => p.negated && (predName p == a)

theorem of_posB {stmts : List Statement} {a : String}
    (h : posB stmts a = true) :
    ∃ s ∈ stmts, ∃ p ∈ s.predicates, p.negated = false ∧ predName p = a := by
  simp only [posB, List.any_eq_true, Bool.and_eq_true, Bool.not_eq_true',
    beq_iff_eq] at h
  obtain ⟨s, hs, p, hp, hn, ha⟩ := h
  exact ⟨s, hs, p, hp, hn, ha⟩

theorem of_negB {stmts : List Statement} {a : String}
    (h : negB stmts a = true) :
    ∃ s ∈ stmts, ∃ p ∈ s.predicates, p.negated = true ∧ predName p = a := by
  simp only [negB, List.any_eq_true, Bool.and_eq_true, beq_iff_eq] at h
  obtain ⟨s, hs, p, hp, hn, ha⟩ := h
  exact ⟨s, hs, p, hp, hn, ha⟩

theorem sat_of_no_conflict (stmts : List Statement)
    (h : ∀ a, posB stmts a = true → negB stmts a = false) :
    Satisfiable (stmts.map stmtFormula) := by
  refine ⟨fun a => posB stmts a, ?_⟩
  intro f hf
  obtain ⟨s, hs, rfl⟩ := List.mem_map.mp hf
  rw [eval_stmtFormula, List.all_eq_true]
  intro p hp
  rw [eval_litFormula]
  cases hn : p.negated
  · have hpos : posB stmts (predName p) = true := by
      simp only [posB, List.any_eq_true]
      exact ⟨s, hs, p, hp, by simp [hn]⟩
    simp [hpos]
  · have hneg : negB stmts (predName p) = true := by
      simp only [negB, List.any_eq_true]
      exact ⟨s, hs, p, hp, by simp [hn]⟩
    have hpos : posB stmts (predName p) = false := by
      cases hb : posB stmts (predName p)
      · rfl
      · rw [h _ hb] at hneg
        exact absurd hneg (by simp)
    simp [hpos]

theorem unsat_list_of_conflict {l : List Z3Bool} {s t : Statement}
    {p q : Predicate} (hsl : stmtFormula s ∈ l) (htl : stmtFormula t ∈ l)
    (hp : p ∈ s.predicates) (hq : q ∈ t.predicates)
    (hpn : p.negated = false) (hqn : q.negated = true)
    (hname : predName p = predName q) : ¬ Satisfiable l := by
  rintro ⟨v, hv⟩
  have h1 := eval_true_of_mem (hv _ hsl) hp
  have h2 := eval_true_of_mem (hv _ htl) hq
  rw [hpn] at h1
  rw [hqn, ← hname] at h2
  simp only [Bool.not_false, Bool.not_true] at h1 h2
  rw [h1] at h2
  exact absurd h2 (by simp)

theorem mem_pairList {n i j : Nat} (hij : i < j) (hj : j < n) :
    (i, j) ∈ pairList n := by
  simp only [pairList, List.mem_flatMap, List.mem_map]
  refine ⟨i, List.mem_range.mpr (Nat.lt_trans hij hj), j, ?_, rfl⟩
  rw [List.mem_range'_1]
  omega

theorem pairList_bounds {n i j : Nat} (h : (i, j) ∈ pairList n) :
    i < j ∧ j < n := by
  simp only [pairList, List.mem_flatMap, List.mem_map] at h
  obtain ⟨a, ha, b, hb, heq⟩ := h
  injection heq with h1 h2
  subst h1
  subst h2
  rw [List.mem_range] at ha
  rw [List.mem_range'_1] at hb
  omega

theorem pair_conflict_of_unsat {stmts : List Statement}
    (h2 : 2 ≤ stmts.length) (h : ¬ Satisfiable (stmts.map stmtFormula)) :
    ∃ i j, i < j ∧ j < stmts.length ∧
      ¬ Satisfiable [stmtFormula (stmts.getD i dStmt),
        stmtFormula (stmts.getD j dStmt)] := by
  have hconf : ∃ a, posB stmts a = true ∧ negB stmts a = true := by
    by_contra hno
    push_neg at hno
    refine h (sat_of_no_conflict stmts ?_)
    intro a hpos
    cases hb : negB stmts a
    · rfl
    · exact absurd hb (hno a hpos)
  obtain ⟨a, hpos, hneg⟩ := hconf
  obtain ⟨s, hs, p, hp, hpn, hpa⟩ := of_posB hpos
  obtain ⟨t, ht, q, hq, hqn, hqa⟩ := of_negB hneg
  have hname : predName p = predName q := by rw [hpa, hqa]
  obtain ⟨i, hi, hsi⟩ := List.mem_iff_getElem.mp hs
  obtain ⟨j, hj, htj⟩ := List.mem_iff_getElem.mp ht
  have hgi : stmts.getD i dStmt = s := by
    rw [List.getD_eq_getElem stmts dStmt hi, hsi]
  have hgj : stmts.getD j dStmt = t := by
    rw [List.getD_eq_getElem stmts dStmt hj, htj]
  rcases Nat.lt_trichotomy i j with hlt | heq | hgt
  · refine ⟨i, j, hlt, hj, ?_⟩
    exact unsat_list_of_conflict (by rw [hgi]; exact List.mem_cons_self _ _)
      (by rw [hgj]; simp) hp hq hpn hqn hname
  · subst heq
    have hst : s = t := by rw [← hsi, htj]
    have hqs : q ∈ s.predicates := by rw [hst]; exact hq
    by_cases hi0 : i = 0
    · subst hi0
      refine ⟨0, 1, Nat.zero_lt_one, by omega, ?_⟩
      exact unsat_list_of_conflict (by rw [hgi]; exact List.mem_cons_self _ _)
        (by rw [hgi]; exact List.mem_cons_self _ _) hp hqs hpn hqn hname
    · refine ⟨0, i, Nat.pos_of_ne_zero hi0, hi, ?_⟩
      exact unsat_list_of_conflict (by rw [hgi]; simp) (by rw [hgi]; simp)
        hp hqs hpn hqn hname
  · refine ⟨j, i, hgt, hi, ?_⟩
    exact unsat_list_of_conflict (by rw [hgi]; simp)
      (by rw [hgj]; exact List.mem_cons_self _ _) hp hq hpn hqn hname

theorem verify_statements_ideal (stmts : List Statement) :
    (verify_statements z3Check stmts).map (fun r => r.is_consistent) =
      .ok (z3CheckB (stmts.map stmtFormula)) := by
  cases hb : z3CheckB (stmts.map stmtFormula)
  · rw [verify_statements_unsat (by simp [z3Check, hb])]
    rfl
  · rw [verify_statements_sat (by simp [z3Check, hb])]
    rfl

theorem mapOk {ε α β : Type} (f : α → β) (a : α) :
    (Except.ok a : Except ε α).map f = .ok (f a) := rfl

theorem pairVerdict_some {o : Oracle} {s1 s2 : Statement} {c : Contradiction}
    (h : pairVerdict o s1 s2 = some c) :
    o [stmtFormula s1, stmtFormula s2] = .Unsat ∧
      c.statement1 = s1.id ∧ c.statement2 = s2.id := by
  unfold pairVerdict at h
  cases ho : o [stmtFormula s1, stmtFormula s2] <;> rw [ho] at h
  · cases h
  · cases Option.some.inj h
    exact ⟨rfl, rfl, rfl⟩
  · cases h

theorem sat_append_singleton_mp {l : List Z3Bool} {f g : Z3Bool}
    (h : ∀ v, eval v f = eval v g) (hs : Satisfiable (l ++ [f])) :
    Satisfiable (l ++ [g]) := by
  obtain ⟨v, hv⟩ := hs
  refine ⟨v, fun x hx => ?_⟩
  rcases List.mem_append.mp hx with hx | hx
  · exact hv x (List.mem_append.mpr (Or.inl hx))
  · rw [List.mem_singleton.mp hx, ← h v]
    exact hv f (List.mem_append.mpr (Or.inr (List.mem_singleton.mpr rfl)))

theorem sat_append_singleton_congr {l : List Z3Bool} {f g : Z3Bool}
    (h : ∀ v, eval v f = eval v g) :
    Satisfiable (l ++ [f]) ↔ Satisfiable (l ++ [g]) :=
  ⟨sat_append_singleton_mp h, sat_append_singleton_mp fun v => (h v).symm⟩

theorem eval_negateStatement_single (v : String → Bool) (s : Statement)
    (p : Predicate) (hc : s.predicates = [p]) :
    eval v (stmtFormula (negateStatement s)) = !(eval v (stmtFormula s)) := by
  show eval v (combineAnd ((s.predicates.map fun q =>
    { q with negated := !q.negated }).map litFormula)) = _
  rw [stmtFormula, hc]
  show eval v (litFormula { p with negated := !p.negated }) =
    !(eval v (litFormula p))
  rw [eval_litFormula, eval_litFormula]
  cases hp : p.negated <;> simp <;> rfl

theorem sat_middle_true {A B : List Z3Bool} {f : Z3Bool}
    (hf : ∀ v, eval v f = true) :
    Satisfiable (A ++ f :: B) ↔ Satisfiable (A ++ B) := by
  constructor <;> rintro ⟨v, hv⟩ <;> refine ⟨v, fun x hx => ?_⟩
  · rcases List.mem_append.mp hx with hx | hx
    · exact hv x (List.mem_append.mpr (Or.inl hx))
    · exact hv x (List.mem_append.mpr (Or.inr (List.mem_cons_of_mem f hx)))
  · rcases List.mem_append.mp hx with hx | hx
    · exact hv x (List.mem_append.mpr (Or.inl hx))
    · rcases List.mem_cons.mp hx with rfl | hx
      · exact hf v
      · exact hv x (List.mem_append.mpr (Or.inr hx))

theorem z3CheckB_congr {A B : List Z3Bool}
    (h : Satisfiable A ↔ Satisfiable B) : z3CheckB A = z3CheckB B := by
  rw [Bool.eq_iff_iff, z3CheckB_iff, z3CheckB_iff]
  exact h

/-- C1 counterexample: on the single self-contradictory statement
`P(x) ∧ ¬P(x)`, `check` returns `is_consistent = false` yet `localize` on
the same list returns no `Contradiction` at all, because there is no pair
of statements to inspect. -/
theorem c1_counterexample :
    (verify_statements z3Check [sSelf]).map (fun r => r.is_consistent) =
        .ok false ∧
      (find_contradictions z3Check emptyMap [sSelf]).map (fun x => x.1) =
        .ok [] :=
  ⟨rfl, rfl⟩

/-- C1 (amended): for every statement list with at least two statements on
which `check` (with the ideal decision oracle) returns
`is_consistent = false`, `localize` on the same list returns at least one
`Contradiction`, and every reported `Contradiction` names an index pair
`i < j` whose two statements' formulas are by themselves jointly
unsatisfiable. -/
theorem c1_pairwise_completeness (stmts : List Statement)
    (r : VerificationResult) (cs : List Contradiction)
    (h2 : 2 ≤ stmts.length)
    (hr : verify_statements z3Check stmts = .ok r)
    (hf : r.is_consistent = false)
    (hcs : (find_contradictions z3Check emptyMap stmts).map (fun x => x.1) =
      .ok cs) :
    cs ≠ [] ∧
      ∀ c ∈ cs, ∃ i j, i < j ∧ j < stmts.length ∧
        c.statement1 = (stmts.getD i dStmt).id ∧
        c.statement2 = (stmts.getD j dStmt).id ∧
        ¬ Satisfiable [stmtFormula (stmts.getD i dStmt),
          stmtFormula (stmts.getD j dStmt)] := by
  have hideal := verify_statements_ideal stmts
  rw [hr, mapOk] at hideal
  have hri := Except.ok.inj hideal
  have hb : z3CheckB (stmts.map stmtFormula) = false := by
    rw [← hri]
    exact hf
  have hunsat : ¬ Satisfiable (stmts.map stmtFormula) := fun hsat => by
    rw [(z3CheckB_iff _).mpr hsat] at hb
    cases hb
  obtain ⟨m', hfind, hm'⟩ := find_contradictions_eq goodMap_empty z3Check stmts
  rw [hfind, mapOk] at hcs
  cases Except.ok.inj hcs
  constructor
  · obtain ⟨i, j, hij, hj, hpair⟩ := pair_conflict_of_unsat h2 hunsat
    have hverd : pairVerdict z3Check (stmts.getD i dStmt)
        (stmts.getD j dStmt) = some { statement1 := (stmts.getD i dStmt).id,
                                      statement2 := (stmts.getD j dStmt).id,
                                      reason := "Statements are mutually exclusive",
                                      formal_proof := "Z3 proved (stmt1 ∧ stmt2) is unsatisfiable" } := by
      unfold pairVerdict
      rw [(z3Check_Unsat_iff _).mpr hpair]
    have hemit : emitPair z3Check stmts (i, j) = some
        { statement1 := (stmts.getD i dStmt).id,
          statement2 := (stmts.getD j dStmt).id,
          reason := "Statements are mutually exclusive",
          formal_proof := "Z3 proved (stmt1 ∧ stmt2) is unsatisfiable" } := hverd
    exact List.ne_nil_of_mem (List.mem_filterMap.mpr
      ⟨(i, j), mem_pairList hij hj, hemit⟩)
  · intro c hc
    obtain ⟨ij, hmem, hemit⟩ := List.mem_filterMap.mp hc
    rcases ij with ⟨i, j⟩
    obtain ⟨hij, hj⟩ := pairList_bounds hmem
    have hverd : pairVerdict z3Check (stmts.getD i dStmt)
        (stmts.getD j dStmt) = some c := hemit
    obtain ⟨ho, h1, hb2⟩ := pairVerdict_some hverd
    exact ⟨i, j, hij, hj, h1, hb2, (z3Check_sound _).2 ho⟩

/-- C1 witness: the inconsistent two-statement list `P(x)`, `¬P(x)`. -/
theorem c1_pairwise_completeness_witness :
    [cPosNeg] ≠ [] ∧
      ∀ c ∈ [cPosNeg], ∃ i j, i < j ∧ j < [sPos, sNeg].length ∧
        c.statement1 = ([sPos, sNeg].getD i dStmt).id ∧
        c.statement2 = ([sPos, sNeg].getD j dStmt).id ∧
        ¬ Satisfiable [stmtFormula ([sPos, sNeg].getD i dStmt),
          stmtFormula ([sPos, sNeg].getD j dStmt)] :=
  c1_pairwise_completeness [sPos, sNeg] rUnsatPair [cPosNeg] (by decide)
    rfl rfl rfl

/-- C2: two predicates with identical `(name, args)` intern to the same
logical variable wherever they occur, and any statement list containing a
predicate unnegated in one statement and the same signature negated in
another is reported inconsistent by `check` for every sound oracle. -/
theorem c2_atom_sharing (o : Oracle) (m m2 : PredMap) (p q : Predicate)
    (stmts : List Statement) (s t : Statement)
    (ho : SoundOracle o) (hm : GoodMap m) (hm2 : GoodMap m2)
    (hname : p.name = q.name) (hargs : p.args = q.args)
    (hs : s ∈ stmts) (ht : t ∈ stmts)
    (hp : p ∈ s.predicates) (hq : q ∈ t.predicates)
    (hpn : p.negated = false) (hqn : q.negated = true) :
    (internPred m p).1 = (internPred m2 q).1 ∧
      (verify_statements o stmts).map (fun r => r.is_consistent) =
        .ok false := by
  have hpq : predName p = predName q := by
    simp only [predName, hname, hargs]
  refine ⟨?_, ?_⟩
  · rw [internPred_fst hm p, internPred_fst hm2 q, hpq]
  · have hunsat : ¬ Satisfiable (stmts.map stmtFormula) :=
      unsat_list_of_conflict (List.mem_map_of_mem _ hs)
        (List.mem_map_of_mem _ ht) hp hq hpn hqn hpq
    cases hov : o (stmts.map stmtFormula)
    · exact absurd ((ho _).1 hov) hunsat
    · rw [verify_statements_unsat hov]
      rfl
    · rw [verify_statements_unknown hov]
      rfl

/-- C2 witness: `P(x)` and `¬P(x)` in two statements under the ideal
oracle. -/
theorem c2_atom_sharing_witness :
    (internPred emptyMap pPos).1 = (internPred emptyMap pNeg).1 ∧
      (verify_statements z3Check [sPos, sNeg]).map
          (fun r => r.is_consistent) = .ok false :=
  c2_atom_sharing z3Check emptyMap emptyMap pPos pNeg [sPos, sNeg] sPos sNeg
    z3Check_sound goodMap_empty goodMap_empty rfl rfl (by decide) (by decide)
    (by decide) (by decide) rfl rfl

/-- C3: with the ideal oracle, `entails` returns `is_consistent = true`
exactly when the premise formulas plus the logical NOT of the conclusion's
whole formula are unsatisfiable, and `is_consistent = false` exactly when
that assertion set is satisfiable. -/
theorem c3_refutation_method (premises : List Statement)
    (conclusion : Statement) (r : VerificationResult)
    (hr : verify_reasoning_chain z3Check premises conclusion = .ok r) :
    (r.is_consistent = true ↔
        ¬ Satisfiable (chainAsserts premises conclusion)) ∧
      (r.is_consistent = false ↔
        Satisfiable (chainAsserts premises conclusion)) := by
  rw [verify_reasoning_chain_eq] at hr
  cases Except.ok.inj hr
  cases hb : z3CheckB (chainAsserts premises conclusion)
  · have hcz : z3Check (chainAsserts premises conclusion) = .Unsat := by
      simp [z3Check, hb]
    have huns : ¬ Satisfiable (chainAsserts premises conclusion) :=
      fun hsat => by
        rw [(z3CheckB_iff _).mpr hsat] at hb
        cases hb
    rw [hcz]
    exact ⟨⟨fun _ => huns, fun _ => rfl⟩,
      ⟨fun hcon => absurd hcon (by decide), fun hsat => absurd hsat huns⟩⟩
  · have hcz : z3Check (chainAsserts premises conclusion) = .Sat := by
      simp [z3Check, hb]
    have hsat : Satisfiable (chainAsserts premises conclusion) :=
      (z3CheckB_iff _).mp hb
    rw [hcz]
    exact ⟨⟨fun hcon => absurd hcon (by decide), fun hn => absurd hsat hn⟩,
      ⟨fun _ => hsat, fun _ => rfl⟩⟩

/-- C3 witness: empty premises and conclusion `P(x)`. -/
theorem c3_refutation_method_witness :
    (rChainSat.is_consistent = true ↔
        ¬ Satisfiable (chainAsserts [] sPos)) ∧
      (rChainSat.is_consistent = false ↔
        Satisfiable (chainAsserts [] sPos)) :=
  c3_refutation_method [] sPos rChainSat rfl

/-- C4: for every oracle and input, confidence is exactly 1 on a definite
SAT or UNSAT verdict and exactly 0 on UNKNOWN, for both entry points, and
an UNKNOWN verdict yields `is_consistent = false`, empty contradictions
and no proof string. -/
theorem c4_binary_confidence (o : Oracle) (stmts premises : List Statement)
    (conclusion : Statement) :
    (verify_statements o stmts).map (fun r => r.confidence) =
        .ok (if o (stmts.map stmtFormula) = .Unknown then 0 else 1) ∧
      (verify_reasoning_chain o premises conclusion).map
          (fun r => r.confidence) =
        .ok (if o (chainAsserts premises conclusion) = .Unknown
             then 0 else 1) ∧
      (o (stmts.map stmtFormula) = .Unknown →
        (verify_statements o stmts).map
            (fun r => (r.is_consistent, r.contradictions, r.proof)) =
          .ok (false, [], none)) ∧
      (o (chainAsserts premises conclusion) = .Unknown →
        (verify_reasoning_chain o premises conclusion).map
            (fun r => (r.is_consistent, r.contradictions, r.proof)) =
          .ok (false, [], none)) := by
  refine ⟨?_, ?_, ?_, ?_⟩
  · cases hov : o (stmts.map stmtFormula)
    · rw [verify_statements_sat hov, mapOk]
      simp
    · rw [verify_statements_unsat hov, mapOk]
      simp
    · rw [verify_statements_unknown hov, mapOk]
      simp
  · rw [verify_reasoning_chain_eq, mapOk]
    cases hov : o (chainAsserts premises conclusion) <;> simp [chainResult]
  · intro hov
    rw [verify_statements_unknown hov]
    rfl
  · intro hov
    rw [verify_reasoning_chain_eq, hov]
    rfl

/-- C4 witness: an always-UNKNOWN oracle on the statement `P(x)`. -/
theorem c4_binary_confidence_witness :
    (verify_statements oUnknown [sPos]).map (fun r => r.confidence) =
        .ok 0 ∧
      (verify_statements oUnknown [sPos]).map
          (fun r => (r.is_consistent, r.contradictions, r.proof)) =
        .ok (false, [], none) := by
  have h := c4_binary_confidence oUnknown [sPos] [] sPos
  exact ⟨by simpa using h.1, h.2.2.1 rfl⟩

/-- C5 counterexample: with premises `[A()]` and two-literal conclusion
`A() ∧ B()`, `entails` returns false (the premises do not force `B()`),
yet `check` on the premises plus the conclusion negated as a Statement
(per-literal flip, the only statement-shaped negation) is also
inconsistent, so the claimed equivalence fails. -/
theorem c5_counterexample :
    ¬ (((verify_reasoning_chain z3Check [sA] cAB).map
          (fun r => r.is_consistent) = .ok true) ↔
       ((verify_statements z3Check ([sA] ++ [negateStatement cAB])).map
          (fun r => r.is_consistent) = .ok false)) := by
  intro h
  have hL := h.mpr rfl
  have hact : (verify_reasoning_chain z3Check [sA] cAB).map
      (fun r => r.is_consistent) = .ok false := rfl
  rw [hact] at hL
  exact Bool.noConfusion (Except.ok.inj hL)

/-- C5 (amended): for a conclusion with exactly one predicate, whose
negation is expressible as a Statement by flipping its `negated` flag,
`entails(P, C)` returns `is_consistent = true` iff `check` on `P` extended
with the negated statement returns `is_consistent = false`, with the ideal
oracle. -/
theorem c5_entailment_duality (premises : List Statement)
    (conclusion : Statement) (p : Predicate)
    (hc : conclusion.predicates = [p]) :
    ((verify_reasoning_chain z3Check premises conclusion).map
        (fun r => r.is_consistent) = .ok true) ↔
      ((verify_statements z3Check
          (premises ++ [negateStatement conclusion])).map
          (fun r => r.is_consistent) = .ok false) := by
  rw [verify_reasoning_chain_eq, mapOk, verify_statements_ideal]
  have hsat : Satisfiable (chainAsserts premises conclusion) ↔
      Satisfiable ((premises ++ [negateStatement conclusion]).map
        stmtFormula) := by
    rw [List.map_append]
    show Satisfiable (premises.map stmtFormula ++
      [Z3Bool.not (stmtFormula conclusion)]) ↔ _
    have hmap : List.map stmtFormula [negateStatement conclusion] =
        [stmtFormula (negateStatement conclusion)] := rfl
    rw [hmap]
    refine sat_append_singleton_congr fun v => ?_
    rw [eval_negateStatement_single v conclusion p hc]
    rfl
  cases hb : z3CheckB (chainAsserts premises conclusion)
  · have hcz : z3Check (chainAsserts premises conclusion) = .Unsat := by
      simp [z3Check, hb]
    have hb2 : z3CheckB ((premises ++ [negateStatement conclusion]).map
        stmtFormula) = false := by
      rw [← z3CheckB_congr hsat, hb]
    rw [hcz, hb2]
    exact ⟨fun _ => rfl, fun _ => rfl⟩
  · have hcz : z3Check (chainAsserts premises conclusion) = .Sat := by
      simp [z3Check, hb]
    have hb2 : z3CheckB ((premises ++ [negateStatement conclusion]).map
        stmtFormula) = true := by
      rw [← z3CheckB_congr hsat, hb]
    rw [hcz, hb2]
    constructor
    · intro hfalse
      exact absurd (Except.ok.inj hfalse) (by decide)
    · intro hfalse
      exact absurd (Except.ok.inj hfalse) (by decide)

/-- C5 witness: empty premises and single-literal conclusion `P(x)`. -/
theorem c5_entailment_duality_witness :
    ((verify_reasoning_chain z3Check [] sPos).map
        (fun r => r.is_consistent) = .ok true) ↔
      ((verify_statements z3Check ([] ++ [negateStatement sPos])).map
          (fun r => r.is_consistent) = .ok false) :=
  c5_entailment_duality [] sPos pPos rfl

/-- C6: contradictions are non-empty only when `is_consistent` is false
(whenever it is true they are empty), and the entailment path returns
empty contradictions regardless of verdict, for every oracle. -/
theorem c6_contradictions_shape (o : Oracle) (stmts premises : List Statement)
    (conclusion : Statement) (r r2 : VerificationResult)
    (hr : verify_statements o stmts = .ok r)
    (hrc : r.is_consistent = true)
    (h2 : verify_reasoning_chain o premises conclusion = .ok r2) :
    r.contradictions = [] ∧ r2.contradictions = [] := by
  constructor
  · cases hov : o (stmts.map stmtFormula)
    · rw [verify_statements_sat hov] at hr
      cases Except.ok.inj hr
      rfl
    · rw [verify_statements_unsat hov] at hr
      cases Except.ok.inj hr
      exact Bool.noConfusion hrc
    · rw [verify_statements_unknown hov] at hr
      cases Except.ok.inj hr
      rfl
  · rw [verify_reasoning_chain_eq] at h2
    cases Except.ok.inj h2
    cases o (chainAsserts premises conclusion) <;> rfl

/-- C6 witness: the consistent empty check and a failed entailment. -/
theorem c6_contradictions_shape_witness :
    rSatEmpty.contradictions = [] ∧ rChainSat.contradictions = [] :=
  c6_contradictions_shape z3Check [] [] sPos rSatEmpty rChainSat rfl rfl rfl

/-- C7: contrary to the claim, a zero-length predicate name is accepted
silently: the call succeeds with no error and the empty-named atom is
processed like any other atom (asserting it and its negation refutes) and
is not skipped. -/
theorem c7_empty_name_not_rejected :
    verify_statements z3Check [sEmptyName] = .ok rSatEmpty ∧
      (verify_statements z3Check [sEmptyName, sEmptyNameNeg]).map
          (fun r => r.is_consistent) = .ok false :=
  ⟨rfl, rfl⟩

/-- C8: atom identity is the rendered string `name(args joined with
commas)`: any two predicates with equal rendered names intern to the same
variable even when their `(name, args)` pairs differ, and the distinct
signatures `f(["a,b"])` and `f(["a","b"])` collide, so asserting one and
the negation of the other is reported inconsistent. -/
theorem c8_rendered_string_identity (p q : Predicate) (m m2 : PredMap)
    (hm : GoodMap m) (hm2 : GoodMap m2) (h : predName p = predName q) :
    (internPred m p).1 = (internPred m2 q).1 ∧
      (predName pJoined = predName pSplit ∧ pJoined.args ≠ pSplit.args) ∧
      (verify_statements z3Check [sJoined, sSplitNeg]).map
          (fun r => r.is_consistent) = .ok false := by
  refine ⟨?_, ⟨rfl, by decide⟩, rfl⟩
  rw [internPred_fst hm p, internPred_fst hm2 q, h]

/-- C8 witness: the colliding predicates `f(["a,b"])` and `f(["a","b"])`. -/
theorem c8_rendered_string_identity_witness :
    (internPred emptyMap pJoined).1 = (internPred emptyMap pSplit).1 ∧
      (predName pJoined = predName pSplit ∧ pJoined.args ≠ pSplit.args) ∧
      (verify_statements z3Check [sJoined, sSplitNeg]).map
          (fun r => r.is_consistent) = .ok false :=
  c8_rendered_string_identity pJoined pSplit emptyMap emptyMap
    goodMap_empty goodMap_empty rfl

/-- C9: a pair whose satisfiability query returns UNKNOWN is handled
exactly like a satisfiable pair: no `Contradiction` is emitted, the call
succeeds with no error, and the outcome equals that of a SAT-answering
oracle on the same pair. -/
theorem c9_unknown_pair_like_sat (o o2 : Oracle) (m : PredMap)
    (s1 s2 : Statement) (hm : GoodMap m)
    (hu : o [stmtFormula s1, stmtFormula s2] = .Unknown)
    (hs : o2 [stmtFormula s1, stmtFormula s2] = .Sat) :
    (check_pair_contradiction o m s1 s2).map (fun x => x.1) = .ok none ∧
      (check_pair_contradiction o m s1 s2).map (fun x => x.1) =
        (check_pair_contradiction o2 m s1 s2).map (fun x => x.1) := by
  obtain ⟨m1, h1, hm1⟩ := check_pair_eq hm o s1 s2
  obtain ⟨m2c, hc2, hm2c⟩ := check_pair_eq hm o2 s1 s2
  rw [h1, hc2, mapOk, mapOk]
  unfold pairVerdict
  rw [hu, hs]
  exact ⟨rfl, rfl⟩

/-- C9 witness: an always-UNKNOWN and an always-SAT oracle on the pair
`P(x)`, `¬P(x)`. -/
theorem c9_unknown_pair_like_sat_witness :
    (check_pair_contradiction oUnknown emptyMap sPos sNeg).map
        (fun x => x.1) = .ok none ∧
      (check_pair_contradiction oUnknown emptyMap sPos sNeg).map
          (fun x => x.1) =
        (check_pair_contradiction oSat emptyMap sPos sNeg).map
          (fun x => x.1) :=
  c9_unknown_pair_like_sat oUnknown oSat emptyMap sPos sNeg goodMap_empty
    rfl rfl

/-- C10: with the ideal oracle, `check` on the empty list reports
consistent with confidence 1 and no contradictions, and inserting a
statement with an empty predicate list (whose formula is the constant
`true`) anywhere never changes the `is_consistent` verdict. -/
theorem c10_empty_inputs (l1 l2 : List Statement) (s : Statement)
    (hs : s.predicates = []) :
    (verify_statements z3Check []).map
        (fun r => (r.is_consistent, r.confidence, r.contradictions)) =
        .ok (true, 1, []) ∧
      (verify_statements z3Check (l1 ++ s :: l2)).map
          (fun r => r.is_consistent) =
        (verify_statements z3Check (l1 ++ l2)).map
          (fun r => r.is_consistent) := by
  refine ⟨rfl, ?_⟩
  rw [verify_statements_ideal, verify_statements_ideal]
  congr 1
  apply z3CheckB_congr
  rw [List.map_append, List.map_cons, List.map_append]
  refine sat_middle_true fun v => ?_
  rw [stmtFormula, hs]
  rfl

/-- C10 witness: inserting the trivially true statement after `P(x)`. -/
theorem c10_empty_inputs_witness :
    (verify_statements z3Check []).map
        (fun r => (r.is_consistent, r.confidence, r.contradictions)) =
        .ok (true, 1, []) ∧
      (verify_statements z3Check ([sPos] ++ sTrivial :: [])).map
          (fun r => r.is_consistent) =
        (verify_statements z3Check ([sPos] ++ [])).map
          (fun r => r.is_consistent) :=
  c10_empty_inputs [sPos] [] sTrivial rfl

end MomoAI
